import Mathlib

/-!
Shallow embedding of `pyecn/I_Profile_Loader/current_profile.py`.

Python floats are modelled by exact rationals (`ℚ`); the non-finite float
values (`inf`, `-inf`, `nan`), which `float(...)` can produce from strings
such as `"inf"` and which the `np.isfinite` validation gate rejects, are
modelled by a dedicated constructor of `PyFloat`.  NumPy array operations
(`np.arange`, `np.diff`, `np.interp`) are embedded by their documented
exact-arithmetic semantics on lists; in particular `np.interp`'s point
lookup follows NumPy's `binary_search_with_guess`, which locates the last
index `j` with `xp[j] ≤ x` in a sorted `xp`.
-/

namespace PyECN

/-- Outcome of Python `float(value)` on a CSV cell string: a finite value
(modelled exactly as a rational) or a non-finite float (`inf`, `-inf`,
`nan`), which parses successfully but is rejected later by the
`np.isfinite` check in `load_profile_csv`. -/
inductive PyFloat where
  | fin (q : ℚ)
  | notFin
  deriving DecidableEq, Repr

/-- `np.isfinite` on a parsed value. -/
def pyfloatIsFinite : PyFloat → Bool
  | PyFloat.fin _ => true
  | PyFloat.notFin => false

/-- The rational carried by a finite parsed value (junk `0` on non-finite
values, which are unreachable after the finiteness gate). -/
def pyfloatToRat : PyFloat → ℚ
  | PyFloat.fin q => q
  | PyFloat.notFin => 0

/-- The two CSV column names the loader reads (`t_s`, `I_A`); all other
header names are collapsed to `other`, since extra columns are ignored. -/
inductive ColName where
  | t_s
  | i_a
  | other
  deriving DecidableEq, Repr

/-- A CSV cell as seen by `_parse_float`: absent (`csv.DictReader` fills
`None` for short rows, making `float` raise `TypeError`), a string that
`float(...)` rejects (`ValueError`), or a string whose `float(...)` parse
outcome is the given `PyFloat`. -/
inductive Cell where
  | absent
  | nonNumeric
  | val (x : PyFloat)
  deriving DecidableEq, Repr

/-- One data row of the CSV, restricted to the two cells the loader reads:
`row.get("t_s")` and `row.get("I_A")`. -/
structure CSVRow where
  t_cell : Cell
  i_cell : Cell
  deriving DecidableEq, Repr

/-- A CSV file as consumed by `load_profile_csv`: whether the path exists,
the header (`reader.fieldnames`, `none` when the file has no header row),
and the data rows in file order. -/
structure CSVFile where
  present : Bool
  fieldnames : Option (List ColName)
  rows : List CSVRow
  deriving DecidableEq, Repr

/-- The error taxonomy of the module: each constructor corresponds to one
`raise` site in `current_profile.py`. -/
inductive Err where
  | missingFile
  | noHeaderRow
  | missingColumns
  | parseErr (rowIndex : Nat) (field : ColName)
  | noDataRows
  | nonFiniteValues
  | nonMonotonicTime
  | dtNotPositive
  | tEndNotPositive
  | emptyTimeGrid
  | gridStartsBefore
  | gridEndsAfter
  deriving DecidableEq, Repr

/-- `ProfileData`: validated time and current arrays (finite floats,
modelled as rationals). -/
structure ProfileData where
  times_s : List ℚ
  currents_a : List ℚ
  deriving DecidableEq, Repr

instance {e a : Type} [DecidableEq e] [DecidableEq a] :
    DecidableEq (Except e a) := fun x y =>
  match x, y with
  | Except.ok u, Except.ok v =>
    if h : u = v then isTrue (h ▸ rfl)
    else isFalse (fun hc => h (Except.ok.inj hc))
  | Except.error u, Except.error v =>
    if h : u = v then isTrue (h ▸ rfl)
    else isFalse (fun hc => h (Except.error.inj hc))
  | Except.ok _, Except.error _ => isFalse (fun hc => Except.noConfusion hc)
  | Except.error _, Except.ok _ => isFalse (fun hc => Except.noConfusion hc)

/-- `Except.ok` propagates through `>>=` (definitional). -/
theorem exceptOkBind {e a b : Type} (x : a) (f : a → Except e b) :
    (Except.ok x >>= f : Except e b) = f x := rfl

/-- `_parse_float(value, field_name, row_index)`: returns the parsed float
or raises `ValueError` — "Row i: field is not numeric" — when the cell is
absent or not numeric. -/
def _parse_float : Cell → ColName → Nat → Except Err PyFloat
  | Cell.val x, _, _ => Except.ok x
  | _, field, rowIndex => Except.error (Err.parseErr rowIndex field)

/-- The row loop of `load_profile_csv`: `enumerate(reader, start=2)`,
parsing the `t_s` cell then the `I_A` cell of each row and accumulating
the two sequences in file order; the first parse failure aborts the whole
call. -/
def parseRows : List CSVRow → Nat → Except Err (List PyFloat × List PyFloat)
  | [], _ => Except.ok ([], [])
  | r :: rs, rowIndex => do
      let t ← _parse_float r.t_cell ColName.t_s rowIndex
      let c ← _parse_float r.i_cell ColName.i_a rowIndex
      let rest ← parseRows rs (rowIndex + 1)
      Except.ok (t :: rest.1, c :: rest.2)

/-- `np.any(np.diff(xs) < 0)`: some consecutive difference is negative. -/
def hasDecrease : List ℚ → Bool
  | a :: b :: rest => decide (b < a) || hasDecrease (b :: rest)
  | _ => false

/-- `load_profile_csv(path)`: existence check, header check, required-column
check, per-row parsing, then the eager whole-sequence validations
(non-empty, finiteness, monotonicity) before returning `ProfileData`. -/
def load_profile_csv (file : CSVFile) : Except Err ProfileData :=
  if ¬ file.present then Except.error Err.missingFile
  else
    match file.fieldnames with
    | none => Except.error Err.noHeaderRow
    | some fns =>
      if ¬ (ColName.t_s ∈ fns ∧ ColName.i_a ∈ fns) then
        Except.error Err.missingColumns
      else do
        let parsed ← parseRows file.rows 2
        let times := parsed.1
        let currents := parsed.2
        if times.isEmpty then Except.error Err.noDataRows
        else if ¬ (times.all pyfloatIsFinite ∧ currents.all pyfloatIsFinite) then
          Except.error Err.nonFiniteValues
        else
          let times_arr := times.map pyfloatToRat
          let currents_arr := currents.map pyfloatToRat
          if hasDecrease times_arr then Except.error Err.nonMonotonicTime
          else Except.ok ⟨times_arr, currents_arr⟩

/-- `np.arange(start, stop, step)` for `step > 0`: the points
`start + k·step` for `0 ≤ k < ⌈(stop - start) / step⌉` (stop exclusive). -/
def arange (start stop step : ℚ) : List ℚ :=
  (List.range (max 0 ⌈(stop - start) / step⌉).toNat).map
    (fun k : ℕ => start + (k : ℚ) * step)

/-- `build_time_grid(dt, t_end)`: positivity guards, then
`steps = int(np.floor(t_end / dt))` and `np.arange(0.0, steps*dt + dt, dt)`. -/
def build_time_grid (dt t_end : ℚ) : Except Err (List ℚ) :=
  if dt ≤ 0 then Except.error Err.dtNotPositive
  else if t_end ≤ 0 then Except.error Err.tEndNotPositive
  else
    let steps : ℤ := ⌊t_end / dt⌋
    Except.ok (arange 0 (steps * dt + dt) dt)

/-- One point of `np.interp(x, xp, fp)` for sorted `xp`: NumPy's
`binary_search_with_guess` finds the last index `i` with `xp[i] ≤ x`
(so `i + 1` is the count of elements `≤ x`); then: clamp to `fp[0]` when
`x` is below all of `xp`, clamp to the last `fp` when `i` is the last
index, return `fp[i]` directly when `x` hits `xp[i]` exactly, and
otherwise interpolate linearly on the bracketing interval. -/
def npInterpPoint (xp fp : List ℚ) (x : ℚ) : ℚ :=
  let count := xp.countP (fun t => decide (t ≤ x))
  if count = 0 then fp.headD 0
  else
    let i := count - 1
    if xp.length - 1 ≤ i then fp.getLastD 0
    else if xp.getD i 0 = x then fp.getD i 0
    else
      let x0 := xp.getD i 0
      let x1 := xp.getD (i + 1) 0
      let y0 := fp.getD i 0
      let y1 := fp.getD (i + 1) 0
      y0 + (y1 - y0) / (x1 - x0) * (x - x0)

/-- `np.interp(grid, xp, fp)`: pointwise interpolation over the grid. -/
def npInterp (grid xp fp : List ℚ) : List ℚ :=
  grid.map (npInterpPoint xp fp)

/-- `interpolate_profile(profile, time_grid)`: empty-grid check, range
checks against the profile's first and last times (`time_grid[0]`,
`time_grid[-1]`), then `np.interp`. -/
def interpolate_profile (profile : ProfileData) (time_grid : List ℚ) :
    Except Err (List ℚ) :=
  if time_grid.isEmpty then Except.error Err.emptyTimeGrid
  else if time_grid.headD 0 < profile.times_s.headD 0 then
    Except.error Err.gridStartsBefore
  else if profile.times_s.getLastD 0 < time_grid.getLastD 0 then
    Except.error Err.gridEndsAfter
  else Except.ok (npInterp time_grid profile.times_s profile.currents_a)

/-- `load_current_profile(path, dt)`: parse the CSV, take
`t_end = profile.times_s[-1]`, build the grid, interpolate. -/
def load_current_profile (file : CSVFile) (dt : ℚ) : Except Err (List ℚ) := do
  let profile ← load_profile_csv file
  let t_end := profile.times_s.getLastD 0
  let time_grid ← build_time_grid dt t_end
  interpolate_profile profile time_grid

/-- A data row whose two cells hold finite parsed values. -/
def finiteRow (rc : ℚ × ℚ) : CSVRow :=
  ⟨Cell.val (PyFloat.fin rc.1), Cell.val (PyFloat.fin rc.2)⟩

/-- The grid of `n + 1` uniformly spaced points `0, dt, …, n·dt`. -/
def uniformGrid (n : ℕ) (dt : ℚ) : List ℚ :=
  (List.range (n + 1)).map (fun k : ℕ => (k : ℚ) * dt)

/-- `getLastD` is indexing at `length - 1`. -/
theorem getLastD_eq_getD (l : List ℚ) : l.getLastD 0 = l.getD (l.length - 1) 0 := by
  rw [List.getLastD_eq_getLast?, List.getLast?_eq_getElem?, List.getD_eq_getElem?_getD]

/-- The head of a sorted list bounds every member from below. -/
theorem sorted_headD_le (l : List ℚ) (hs : List.Sorted (· ≤ ·) l) (x : ℚ)
    (hx : x ∈ l) : l.headD 0 ≤ x := by
  cases l with
  | nil => cases hx
  | cons a xs =>
    rcases List.mem_cons.mp hx with rfl | h
    · simp
    · simpa using List.rel_of_sorted_cons hs _ h

/-- The last element of a sorted list bounds every member from above. -/
theorem le_sorted_getLastD (l : List ℚ) (hs : List.Sorted (· ≤ ·) l) (x : ℚ)
    (hx : x ∈ l) : x ≤ l.getLastD 0 := by
  obtain ⟨i, hi, rfl⟩ := List.mem_iff_getElem.mp hx
  rw [getLastD_eq_getD, List.getD_eq_getElem l 0 (by omega)]
  rcases Nat.lt_or_ge i (l.length - 1) with hlt | hge
  · have hab : (⟨i, hi⟩ : Fin l.length) < ⟨l.length - 1, by omega⟩ := hlt
    have := hs.rel_get_of_lt hab
    simpa using this
  · have : i = l.length - 1 := by omega
    subst this
    simp

/-- In a non-decreasingly sorted list where index `i` holds a value `≤ x` and
every later index holds a value `> x`, the count of elements `≤ x` is `i + 1`. -/
theorem countP_le_of_sorted (x : ℚ) :
    ∀ (xp : List ℚ) (i : ℕ), List.Sorted (· ≤ ·) xp → i < xp.length →
      xp.getD i 0 ≤ x → (∀ k, k < xp.length → i < k → x < xp.getD k 0) →
      xp.countP (fun t => decide (t ≤ x)) = i + 1 := by
  intro xp
  induction xp with
  | nil => intro i _ hi; simp at hi
  | cons a xs ih =>
    intro i hs hi hix hk
    cases i with
    | zero =>
      have ha : a ≤ x := by simpa using hix
      have hxs : xs.countP (fun t => decide (t ≤ x)) = 0 := by
        rw [List.countP_eq_zero]
        intro t ht
        obtain ⟨k, hk2, rfl⟩ := List.mem_iff_getElem.mp ht
        have h2 := hk (k + 1) (by simpa using Nat.succ_lt_succ hk2) (Nat.succ_pos k)
        simp only [List.getD_cons_succ] at h2
        rw [List.getD_eq_getElem xs 0 hk2] at h2
        simp [not_le.mpr h2]
      rw [List.countP_cons, hxs]
      simp [ha]
    | succ j =>
      have hs2 : List.Sorted (· ≤ ·) xs := hs.of_cons
      have hj : j < xs.length := by simpa using hi
      have hjx : xs.getD j 0 ≤ x := by simpa using hix
      have hk2 : ∀ k, k < xs.length → j < k → x < xs.getD k 0 := by
        intro k hka hkb
        have := hk (k + 1) (by simpa using Nat.succ_lt_succ hka) (Nat.succ_lt_succ hkb)
        simpa using this
      have ha : a ≤ x := by
        have hmem : xs.getD j 0 ∈ xs := by
          rw [List.getD_eq_getElem xs 0 hj]
          exact List.getElem_mem hj
        exact le_trans (List.rel_of_sorted_cons hs _ hmem) hjx
      rw [List.countP_cons, ih j hs2 hj hjx hk2]
      simp [ha]

/-- `npInterpPoint` at a point that exactly matches the sample time at the
greatest matching index `i` returns `fp` at that index. -/
theorem npInterpPoint_at_match (xp fp : List ℚ) (x : ℚ) (i : ℕ)
    (hs : List.Sorted (· ≤ ·) xp) (hlen : fp.length = xp.length)
    (hi : i < xp.length) (hix : xp.getD i 0 = x)
    (hk : ∀ k, k < xp.length → i < k → x < xp.getD k 0) :
    npInterpPoint xp fp x = fp.getD i 0 := by
  have hcount : xp.countP (fun t => decide (t ≤ x)) = i + 1 :=
    countP_le_of_sorted x xp i hs hi (le_of_eq hix) hk
  simp only [npInterpPoint, hcount]
  rw [if_neg (Nat.succ_ne_zero i)]
  simp only [Nat.add_sub_cancel]
  by_cases hl : xp.length - 1 ≤ i
  · rw [if_pos hl]
    have hieq : i = xp.length - 1 := by omega
    rw [getLastD_eq_getD, hlen, ← hieq]
  · rw [if_neg hl, if_pos hix]

/-- For positive `dt`, `np.arange(0, n·dt + dt, dt)` is the uniform grid
`0, dt, …, n·dt`: the exclusive stop `n·dt + dt` yields `n + 1` points. -/
theorem arange_eq_uniformGrid (dt : ℚ) (hdt : 0 < dt) (n : ℕ) :
    arange 0 ((n : ℚ) * dt + dt) dt = uniformGrid n dt := by
  unfold arange uniformGrid
  have h1 : ((n : ℚ) * dt + dt - 0) / dt = (n : ℚ) + 1 := by
    field_simp
    ring
  rw [h1]
  have h2 : ⌈(n : ℚ) + 1⌉ = (n : ℤ) + 1 := by
    rw [show ((n : ℚ) + 1) = (((n + 1 : ℕ) : ℕ) : ℚ) by push_cast; ring,
      Int.ceil_natCast]
    push_cast
    ring
  rw [h2]
  have h3 : (max (0 : ℤ) ((n : ℤ) + 1)).toNat = n + 1 := by omega
  rw [h3]
  apply List.map_congr_left
  intro k _
  ring

/-- With both guards passed, `build_time_grid` returns the uniform grid with
`⌊t_end / dt⌋ + 1` points. -/
theorem build_time_grid_pos (dt t_end : ℚ) (hdt : 0 < dt) (ht : 0 < t_end) :
    build_time_grid dt t_end =
      Except.ok (uniformGrid (⌊t_end / dt⌋).toNat dt) := by
  unfold build_time_grid
  rw [if_neg (not_le.mpr hdt), if_neg (not_le.mpr ht)]
  have hfl : 0 ≤ ⌊t_end / dt⌋ := Int.floor_nonneg.mpr (le_of_lt (div_pos ht hdt))
  have hcast : ((⌊t_end / dt⌋ : ℤ) : ℚ) = (((⌊t_end / dt⌋).toNat : ℕ) : ℚ) := by
    exact_mod_cast (Int.toNat_of_nonneg hfl).symm
  simp only [hcast]
  rw [arange_eq_uniformGrid dt hdt]

theorem uniformGrid_headD (n : ℕ) (dt : ℚ) : (uniformGrid n dt).headD 0 = 0 := by
  unfold uniformGrid
  rw [List.range_succ_eq_map]
  simp

theorem uniformGrid_getLastD (n : ℕ) (dt : ℚ) :
    (uniformGrid n dt).getLastD 0 = (n : ℚ) * dt := by
  unfold uniformGrid
  rw [List.range_succ, List.map_append]
  simp [List.getLastD_concat]

theorem uniformGrid_ne_nil (n : ℕ) (dt : ℚ) : uniformGrid n dt ≠ [] := by
  unfold uniformGrid
  simp [List.range_succ]

/-- Consecutive points of the uniform grid differ by exactly `dt`. -/
theorem uniformGrid_chain' (n : ℕ) (dt : ℚ) :
    List.Chain' (fun a b => b - a = dt) (uniformGrid n dt) := by
  unfold uniformGrid
  rw [List.chain'_map, List.chain'_range_succ]
  intro m _
  push_cast
  ring

theorem uniformGrid_mem (n : ℕ) (dt : ℚ) (x : ℚ) :
    x ∈ uniformGrid n dt ↔ ∃ k : ℕ, k ≤ n ∧ x = (k : ℚ) * dt := by
  unfold uniformGrid
  simp only [List.mem_map, List.mem_range]
  constructor
  · rintro ⟨k, hk, rfl⟩
    exact ⟨k, by omega, rfl⟩
  · rintro ⟨k, hk, rfl⟩
    exact ⟨k, by omega, rfl⟩

theorem floor_mul_le (a b : ℚ) (hb : 0 < b) : (⌊a / b⌋ : ℚ) * b ≤ a := by
  rw [← le_div_iff₀ hb]
  exact Int.floor_le _

theorem sub_lt_floor_mul (a b : ℚ) (hb : 0 < b) : a - b < (⌊a / b⌋ : ℚ) * b := by
  have h1 := Int.sub_one_lt_floor (a / b)
  have h2 : (a / b - 1) * b < (⌊a / b⌋ : ℚ) * b := mul_lt_mul_of_pos_right h1 hb
  calc a - b = (a / b - 1) * b := by field_simp
    _ < _ := h2

/-- The parse loop on rows of finite cells returns the two value columns. -/
theorem parseRows_finite (rowdata : List (ℚ × ℚ)) : ∀ rowIndex : Nat,
    parseRows (rowdata.map finiteRow) rowIndex =
      Except.ok (rowdata.map (fun rc => PyFloat.fin rc.1),
                 rowdata.map (fun rc => PyFloat.fin rc.2)) := by
  induction rowdata with
  | nil => intro rowIndex; rfl
  | cons r rs ih =>
    intro rowIndex
    simp only [List.map_cons, parseRows, finiteRow, _parse_float, exceptOkBind,
      ih (rowIndex + 1)]

/-- The monotonicity check passes exactly on chains of non-decreasing values. -/
theorem hasDecrease_eq_false_iff (l : List ℚ) :
    hasDecrease l = false ↔ List.Chain' (· ≤ ·) l := by
  induction l with
  | nil => simp [hasDecrease]
  | cons a xs ih =>
    cases xs with
    | nil => simp [hasDecrease]
    | cons b ys =>
      rw [List.chain'_cons, ← ih]
      simp only [hasDecrease, Bool.or_eq_false_iff, decide_eq_false_iff_not, not_lt]

/-- With a valid header, `load_profile_csv` reduces to the parse loop
followed by the three eager validations. -/
theorem load_profile_csv_body (fns : List ColName) (rows : List CSVRow)
    (hts : ColName.t_s ∈ fns) (hia : ColName.i_a ∈ fns) :
    load_profile_csv ⟨true, some fns, rows⟩ =
      (parseRows rows 2 >>= fun parsed =>
        if parsed.1.isEmpty then Except.error Err.noDataRows
        else if ¬ (parsed.1.all pyfloatIsFinite ∧ parsed.2.all pyfloatIsFinite) then
          Except.error Err.nonFiniteValues
        else if hasDecrease (parsed.1.map pyfloatToRat) then
          Except.error Err.nonMonotonicTime
        else Except.ok ⟨parsed.1.map pyfloatToRat, parsed.2.map pyfloatToRat⟩) := by
  unfold load_profile_csv
  dsimp only
  rw [if_neg (by simp)]
  rw [if_neg (not_not_intro ⟨hts, hia⟩)]

/-- Range checks pass when the grid is nonempty and lies within the profile's
time span, and interpolation returns the `np.interp` values. -/
theorem interpolate_profile_ok_of (p : ProfileData) (grid : List ℚ)
    (hne : grid ≠ [])
    (h1 : p.times_s.headD 0 ≤ grid.headD 0)
    (h2 : grid.getLastD 0 ≤ p.times_s.getLastD 0) :
    interpolate_profile p grid =
      Except.ok (npInterp grid p.times_s p.currents_a) := by
  unfold interpolate_profile
  rw [if_neg (by simp [hne]), if_neg (not_lt.mpr h1), if_neg (not_lt.mpr h2)]

/-- C7: `build_time_grid(dt=0.5, t_end=2.0)` returns exactly the five-point
grid `[0.0, 0.5, 1.0, 1.5, 2.0]`. -/
theorem claim_C7 : build_time_grid (1/2) 2 = Except.ok [0, 1/2, 1, 3/2, 2] := by
  with_unfolding_all rfl

/-- C9: `build_time_grid(dt, t_end)` fails (with one of the two
invalid-parameter errors) exactly when `dt ≤ 0` or `t_end ≤ 0`, and returns
a grid exactly when both are strictly positive. -/
theorem claim_C9 (dt t_end : ℚ) :
    ((build_time_grid dt t_end = Except.error Err.dtNotPositive ∨
      build_time_grid dt t_end = Except.error Err.tEndNotPositive) ↔
        (dt ≤ 0 ∨ t_end ≤ 0)) ∧
    ((∃ g, build_time_grid dt t_end = Except.ok g) ↔ (0 < dt ∧ 0 < t_end)) := by
  by_cases hdt : dt ≤ 0
  · unfold build_time_grid
    rw [if_pos hdt]
    constructor
    · exact ⟨fun _ => Or.inl hdt, fun _ => Or.inl rfl⟩
    · constructor
      · rintro ⟨g, hg⟩
        exact Except.noConfusion hg
      · rintro ⟨h1, -⟩
        exact absurd hdt (not_le.mpr h1)
  · by_cases ht : t_end ≤ 0
    · unfold build_time_grid
      rw [if_neg hdt, if_pos ht]
      constructor
      · exact ⟨fun _ => Or.inr ht, fun _ => Or.inr rfl⟩
      · constructor
        · rintro ⟨g, hg⟩
          exact Except.noConfusion hg
        · rintro ⟨-, h2⟩
          exact absurd ht (not_le.mpr h2)
    · rw [build_time_grid_pos dt t_end (not_le.mp hdt) (not_le.mp ht)]
      constructor
      · constructor
        · rintro (h | h) <;> exact Except.noConfusion h
        · rintro (h | h)
          · exact absurd h hdt
          · exact absurd h ht
      · exact ⟨fun _ => ⟨not_le.mp hdt, not_le.mp ht⟩, fun _ => ⟨_, rfl⟩⟩

/-- Witness for C9: `dt = -1` and `t_end = 0` fail, `dt = 1, t_end = 2`
succeeds. -/
theorem claim_C9_witness :
    (build_time_grid (-1) 2 = Except.error Err.dtNotPositive ∨
     build_time_grid (-1) 2 = Except.error Err.tEndNotPositive) ∧
    (build_time_grid 1 0 = Except.error Err.dtNotPositive ∨
     build_time_grid 1 0 = Except.error Err.tEndNotPositive) ∧
    (∃ g, build_time_grid 1 2 = Except.ok g) :=
  ⟨(claim_C9 (-1) 2).1.mpr (Or.inl (by norm_num)),
   (claim_C9 1 0).1.mpr (Or.inr le_rfl),
   (claim_C9 1 2).2.mpr ⟨one_pos, by norm_num⟩⟩

/-- C10: for `0 < t_end < dt`, `build_time_grid` succeeds with the
single-point grid `[0.0]`, whose only (and last) point is strictly below
the requested end time. -/
theorem claim_C10 (dt t_end : ℚ) (h0 : 0 < t_end) (h1 : t_end < dt) :
    build_time_grid dt t_end = Except.ok [0] ∧
    List.getLastD [(0 : ℚ)] 0 < t_end := by
  have hdt : 0 < dt := lt_trans h0 h1
  have hfl : ⌊t_end / dt⌋ = 0 := by
    rw [Int.floor_eq_zero_iff]
    exact ⟨le_of_lt (div_pos h0 hdt), (div_lt_one hdt).mpr h1⟩
  have hgrid : uniformGrid 0 dt = [0] := by
    unfold uniformGrid
    rw [List.range_succ]
    simp
  refine ⟨?_, by simpa using h0⟩
  rw [build_time_grid_pos dt t_end hdt h0, hfl]
  rw [show (0 : ℤ).toNat = 0 from rfl, hgrid]

/-- Witness for C10 at `dt = 2`, `t_end = 1`. -/
theorem claim_C10_witness :
    build_time_grid 2 1 = Except.ok [0] ∧ List.getLastD [(0 : ℚ)] 0 < 1 :=
  claim_C10 2 1 (by norm_num) (by norm_num)

/-- Counterexample to C2: at `dt = 1/2`, `t_end = 7/4` the grid is
`[0, 1/2, 1, 3/2]` and its last point `3/2` is strictly below `t_end`,
refuting "last point greater than or equal to t_end". -/
theorem claim_C2_counterexample :
    build_time_grid (1/2) (7/4) = Except.ok [0, 1/2, 1, 3/2] ∧
    List.getLastD [(0 : ℚ), 1/2, 1, 3/2] 0 < 7/4 := by
  refine ⟨by with_unfolding_all rfl, ?_⟩
  apply of_decide_eq_true
  with_unfolding_all rfl

/-- C2 amended: the grid starts at exactly 0 with consecutive spacing
exactly `dt`, and its last point lies in `(t_end - dt, t_end]` — i.e. it can
fall short of `t_end` by up to one step, never overshooting it. -/
theorem claim_C2_amended (dt t_end : ℚ) (hdt : 0 < dt) (ht : 0 < t_end) :
    ∃ g, build_time_grid dt t_end = Except.ok g ∧ g.headD 0 = 0 ∧
      List.Chain' (fun a b => b - a = dt) g ∧
      t_end - dt < g.getLastD 0 ∧ g.getLastD 0 ≤ t_end := by
  have hfl : 0 ≤ ⌊t_end / dt⌋ := Int.floor_nonneg.mpr (le_of_lt (div_pos ht hdt))
  have hcast : (((⌊t_end / dt⌋).toNat : ℕ) : ℚ) = (⌊t_end / dt⌋ : ℚ) := by
    exact_mod_cast Int.toNat_of_nonneg hfl
  refine ⟨uniformGrid (⌊t_end / dt⌋).toNat dt,
    build_time_grid_pos dt t_end hdt ht,
    uniformGrid_headD _ _,
    uniformGrid_chain' _ _, ?_, ?_⟩
  · rw [uniformGrid_getLastD, hcast]
    exact sub_lt_floor_mul t_end dt hdt
  · rw [uniformGrid_getLastD, hcast]
    exact floor_mul_le t_end dt hdt

/-- Witness for C2 amended at `dt = 1/2`, `t_end = 7/4`. -/
theorem claim_C2_amended_witness :
    ∃ g, build_time_grid (1/2) (7/4) = Except.ok g ∧ g.headD 0 = 0 ∧
      List.Chain' (fun a b => b - a = (1/2 : ℚ)) g ∧
      (7/4 : ℚ) - 1/2 < g.getLastD 0 ∧ g.getLastD 0 ≤ (7/4 : ℚ) :=
  claim_C2_amended (1/2) (7/4) (by norm_num) (by norm_num)

/-- Counterexample to C3: at `dt = 1/2`, `t_end = 2` (an exact multiple)
the grid is `[0, 1/2, 1, 3/2, 2]` — it does not contain the claimed extra
trailing point `steps·dt + dt = 5/2` beyond `t_end`. -/
theorem claim_C3_counterexample :
    build_time_grid (1/2) 2 = Except.ok [0, 1/2, 1, 3/2, 2] ∧
    build_time_grid (1/2) 2 ≠ Except.ok [0, 1/2, 1, 3/2, 2, 5/2] := by
  refine ⟨by with_unfolding_all rfl, ?_⟩
  apply of_decide_eq_true
  with_unfolding_all rfl

/-- C3 amended: with `steps = ⌊t_end / dt⌋`, the grid is exactly the points
`0, dt, 2·dt, …, steps·dt` — the stop value `steps·dt + dt` is exclusive
(`np.arange`), so no trailing point beyond `steps·dt` is ever produced. -/
theorem claim_C3_amended (dt t_end : ℚ) (hdt : 0 < dt) (ht : 0 < t_end) :
    build_time_grid dt t_end =
      Except.ok ((List.range ((⌊t_end / dt⌋).toNat + 1)).map
        (fun k : ℕ => (k : ℚ) * dt)) :=
  build_time_grid_pos dt t_end hdt ht

/-- Witness for C3 amended at `dt = 1/2`, `t_end = 2`. -/
theorem claim_C3_amended_witness :
    build_time_grid (1/2) 2 =
      Except.ok ((List.range ((⌊(2 : ℚ) / (1/2)⌋).toNat + 1)).map
        (fun k : ℕ => (k : ℚ) * (1/2))) :=
  claim_C3_amended (1/2) 2 (by norm_num) (by norm_num)

/-- Counterexample to C4: on the profile `(0,0), (1,5), (1,10), (2,0)`,
interpolating at the duplicated time `t = 1` returns `10` — the value at
the last occurrence — not the claimed `5` at the first occurrence. -/
theorem claim_C4_counterexample :
    interpolate_profile ⟨[0, 1, 1, 2], [0, 5, 10, 0]⟩ [1] = Except.ok [10] ∧
    interpolate_profile ⟨[0, 1, 1, 2], [0, 5, 10, 0]⟩ [1] ≠ Except.ok [5] := by
  refine ⟨by with_unfolding_all rfl, ?_⟩
  apply of_decide_eq_true
  with_unfolding_all rfl

/-- C4 amended: interpolating exactly at a sample time returns the current
associated with the last occurrence of that time in the sequence; on the
example profile `(0,0), (1,5), (1,10), (2,0)`, interpolating at `t = 1`
returns `10` and interpolating at `t = 0.5` returns `2.5`. -/
theorem claim_C4_amended (p : ProfileData) (t : ℚ) (j : ℕ)
    (hs : List.Sorted (· ≤ ·) p.times_s)
    (hlen : p.currents_a.length = p.times_s.length)
    (hj : j < p.times_s.length)
    (hjt : p.times_s.getD j 0 = t)
    (hlast : ∀ k, k < p.times_s.length → j < k → p.times_s.getD k 0 ≠ t) :
    interpolate_profile p [t] = Except.ok [p.currents_a.getD j 0] ∧
    interpolate_profile ⟨[0, 1, 1, 2], [0, 5, 10, 0]⟩ [1] = Except.ok [10] ∧
    interpolate_profile ⟨[0, 1, 1, 2], [0, 5, 10, 0]⟩ [1/2] = Except.ok [5/2] := by
  refine ⟨?_, by with_unfolding_all rfl, by with_unfolding_all rfl⟩
  have hmem : t ∈ p.times_s := by
    rw [← hjt, List.getD_eq_getElem _ 0 hj]
    exact List.getElem_mem hj
  have hgt : ∀ k, k < p.times_s.length → j < k → t < p.times_s.getD k 0 := by
    intro k hk hjk
    have hle : p.times_s.getD j 0 ≤ p.times_s.getD k 0 := by
      rw [List.getD_eq_getElem _ 0 hj, List.getD_eq_getElem _ 0 hk]
      have hab : (⟨j, hj⟩ : Fin p.times_s.length) < ⟨k, hk⟩ := hjk
      simpa using hs.rel_get_of_lt hab
    rcases lt_or_eq_of_le hle with h | h
    · rw [← hjt]
      exact h
    · exact absurd (h ▸ hjt) (hlast k hk hjk)
  have h1 : p.times_s.headD 0 ≤ List.headD [t] 0 := by
    simpa using sorted_headD_le p.times_s hs t hmem
  have h2 : List.getLastD [t] 0 ≤ p.times_s.getLastD 0 := by
    simpa using le_sorted_getLastD p.times_s hs t hmem
  rw [interpolate_profile_ok_of p [t] (by simp) h1 h2]
  unfold npInterp
  rw [List.map_singleton,
    npInterpPoint_at_match p.times_s p.currents_a t j hs hlen hj hjt hgt]

/-- Witness for C4 amended at the example profile, `t = 1`, last matching
index `j = 2`. -/
theorem claim_C4_amended_witness :
    interpolate_profile ⟨[0, 1, 1, 2], [0, 5, 10, 0]⟩ [1] =
      Except.ok [List.getD [(0 : ℚ), 5, 10, 0] 2 0] ∧
    interpolate_profile ⟨[0, 1, 1, 2], [0, 5, 10, 0]⟩ [1] = Except.ok [10] ∧
    interpolate_profile ⟨[0, 1, 1, 2], [0, 5, 10, 0]⟩ [1/2] = Except.ok [5/2] :=
  claim_C4_amended ⟨[0, 1, 1, 2], [0, 5, 10, 0]⟩ 1 2
    (by apply of_decide_eq_true; with_unfolding_all rfl)
    (by apply of_decide_eq_true; with_unfolding_all rfl)
    (by apply of_decide_eq_true; with_unfolding_all rfl)
    (by with_unfolding_all rfl)
    (by apply of_decide_eq_true; with_unfolding_all rfl)

/-- C5: on a sorted nonempty grid, any point strictly outside the profile's
closed time span makes interpolation fail with the corresponding range
error — `gridStartsBefore` whenever some point precedes the profile's first
time, `gridEndsAfter` whenever no point precedes it but some point exceeds
the profile's last time — and no value is ever returned. -/
theorem claim_C5 (p : ProfileData) (grid : List ℚ)
    (hps : List.Sorted (· ≤ ·) p.times_s) (hpne : p.times_s ≠ [])
    (hg : List.Sorted (· ≤ ·) grid) (hgne : grid ≠ []) :
    ((∃ g ∈ grid, g < p.times_s.headD 0) →
      interpolate_profile p grid = Except.error Err.gridStartsBefore) ∧
    ((∀ g ∈ grid, ¬ g < p.times_s.headD 0) →
      (∃ g ∈ grid, p.times_s.getLastD 0 < g) →
      interpolate_profile p grid = Except.error Err.gridEndsAfter) ∧
    ((∃ g ∈ grid, g < p.times_s.headD 0 ∨ p.times_s.getLastD 0 < g) →
      ∀ out, interpolate_profile p grid ≠ Except.ok out) := by
  have hhead : grid.headD 0 ∈ grid := by
    cases grid with
    | nil => exact absurd rfl hgne
    | cons a l => simp
  have hbefore : (∃ g ∈ grid, g < p.times_s.headD 0) →
      interpolate_profile p grid = Except.error Err.gridStartsBefore := by
    rintro ⟨g, hgmem, hb⟩
    unfold interpolate_profile
    rw [if_neg (by simp [hgne]),
      if_pos (lt_of_le_of_lt (sorted_headD_le grid hg g hgmem) hb)]
  have hafter : (∀ g ∈ grid, ¬ g < p.times_s.headD 0) →
      (∃ g ∈ grid, p.times_s.getLastD 0 < g) →
      interpolate_profile p grid = Except.error Err.gridEndsAfter := by
    intro hnb
    rintro ⟨g, hgmem, ha⟩
    unfold interpolate_profile
    rw [if_neg (by simp [hgne]), if_neg (hnb _ hhead),
      if_pos (lt_of_lt_of_le ha (le_sorted_getLastD grid hg g hgmem))]
  refine ⟨hbefore, hafter, ?_⟩
  rintro ⟨g, hgmem, hcase⟩ out hok
  by_cases hb : ∃ g2 ∈ grid, g2 < p.times_s.headD 0
  · rw [hbefore hb] at hok
    exact Except.noConfusion hok
  · push_neg at hb
    have hnb : ∀ g2 ∈ grid, ¬ g2 < p.times_s.headD 0 :=
      fun g2 hg2 => not_lt.mpr (hb g2 hg2)
    rcases hcase with h | h
    · exact absurd h (hnb g hgmem)
    · rw [hafter hnb ⟨g, hgmem, h⟩] at hok
      exact Except.noConfusion hok

/-- Witness for C5: the grid `[0, 1]` starting before the profile over
`[1, 2]` fails with `gridStartsBefore`; the grid `[0, 1, 3]` inside the
profile over `[0, 2]` at its left end but exceeding its last time fails
with `gridEndsAfter`, and the latter call returns no value. -/
theorem claim_C5_witness :
    interpolate_profile ⟨[1, 2], [1, 3]⟩ [0, 1] =
      Except.error Err.gridStartsBefore ∧
    interpolate_profile ⟨[0, 2], [1, 3]⟩ [0, 1, 3] =
      Except.error Err.gridEndsAfter ∧
    ∀ out, interpolate_profile ⟨[0, 2], [1, 3]⟩ [0, 1, 3] ≠ Except.ok out :=
  ⟨(claim_C5 ⟨[1, 2], [1, 3]⟩ [0, 1]
      (by apply of_decide_eq_true; with_unfolding_all rfl)
      (by apply of_decide_eq_true; with_unfolding_all rfl)
      (by apply of_decide_eq_true; with_unfolding_all rfl)
      (by apply of_decide_eq_true; with_unfolding_all rfl)).1
    ⟨0, by apply of_decide_eq_true; with_unfolding_all rfl,
      by apply of_decide_eq_true; with_unfolding_all rfl⟩,
   (claim_C5 ⟨[0, 2], [1, 3]⟩ [0, 1, 3]
      (by apply of_decide_eq_true; with_unfolding_all rfl)
      (by apply of_decide_eq_true; with_unfolding_all rfl)
      (by apply of_decide_eq_true; with_unfolding_all rfl)
      (by apply of_decide_eq_true; with_unfolding_all rfl)).2.1
    (by apply of_decide_eq_true; with_unfolding_all rfl)
    ⟨3, by apply of_decide_eq_true; with_unfolding_all rfl,
      by apply of_decide_eq_true; with_unfolding_all rfl⟩,
   (claim_C5 ⟨[0, 2], [1, 3]⟩ [0, 1, 3]
      (by apply of_decide_eq_true; with_unfolding_all rfl)
      (by apply of_decide_eq_true; with_unfolding_all rfl)
      (by apply of_decide_eq_true; with_unfolding_all rfl)
      (by apply of_decide_eq_true; with_unfolding_all rfl)).2.2
    ⟨3, by apply of_decide_eq_true; with_unfolding_all rfl,
      Or.inr (by apply of_decide_eq_true; with_unfolding_all rfl)⟩⟩

/-- Counterexample to C6: the profile `(0,0), (1,5), (1,10), (2,0)` has a
duplicated time; interpolating on its own time points yields
`[0, 10, 10, 0]`, not its own current values `[0, 5, 10, 0]`. -/
theorem claim_C6_counterexample :
    interpolate_profile ⟨[0, 1, 1, 2], [0, 5, 10, 0]⟩ [0, 1, 1, 2] =
      Except.ok [0, 10, 10, 0] ∧
    interpolate_profile ⟨[0, 1, 1, 2], [0, 5, 10, 0]⟩ [0, 1, 1, 2] ≠
      Except.ok [0, 5, 10, 0] := by
  refine ⟨by with_unfolding_all rfl, ?_⟩
  apply of_decide_eq_true
  with_unfolding_all rfl

/-- C6 amended: for profiles with strictly increasing times, interpolating
on the profile's own time points returns exactly its own current values. -/
theorem claim_C6_amended (p : ProfileData)
    (hs : List.Sorted (· < ·) p.times_s)
    (hne : p.times_s ≠ [])
    (hlen : p.currents_a.length = p.times_s.length) :
    interpolate_profile p p.times_s = Except.ok p.currents_a := by
  rw [interpolate_profile_ok_of p p.times_s hne le_rfl le_rfl]
  congr 1
  unfold npInterp
  apply List.ext_getElem
  · simp [hlen]
  intro i h1 h2
  rw [List.getElem_map]
  have hi : i < p.times_s.length := by simpa using h1
  have happ := npInterpPoint_at_match p.times_s p.currents_a p.times_s[i] i
      (List.Pairwise.imp (fun h => le_of_lt h) hs) hlen hi
      (List.getD_eq_getElem _ 0 hi)
      (fun k hk hik => by
        rw [List.getD_eq_getElem _ 0 hk]
        have hab : (⟨i, hi⟩ : Fin p.times_s.length) < ⟨k, hk⟩ := hik
        simpa using hs.rel_get_of_lt hab)
  rw [happ, List.getD_eq_getElem _ 0 (by omega : i < p.currents_a.length)]

/-- Witness for C6 amended on a strictly increasing profile. -/
theorem claim_C6_amended_witness :
    interpolate_profile ⟨[0, 1, 2], [5, 6, 7]⟩ [0, 1, 2] = Except.ok [5, 6, 7] :=
  claim_C6_amended ⟨[0, 1, 2], [5, 6, 7]⟩
    (by apply of_decide_eq_true; with_unfolding_all rfl)
    (by apply of_decide_eq_true; with_unfolding_all rfl)
    (by with_unfolding_all rfl)

/-- Counterexample to C8: a CSV with a valid header and zero data rows (so
`N = 0`) does not return a length-0 sample sequence — it fails with the
empty-dataset error. -/
theorem claim_C8_counterexample :
    load_profile_csv ⟨true, some [ColName.t_s, ColName.i_a], []⟩ =
      Except.error Err.noDataRows ∧
    load_profile_csv ⟨true, some [ColName.t_s, ColName.i_a], []⟩ ≠
      Except.ok ⟨[], []⟩ := by
  refine ⟨by with_unfolding_all rfl, ?_⟩
  apply of_decide_eq_true
  with_unfolding_all rfl

/-- C8 amended: for a CSV whose header holds both required columns and whose
`N ≥ 1` data rows all parse as finite numbers with non-decreasing times,
parsing returns the two columns in file order, each of length exactly `N`. -/
theorem claim_C8_amended (file : CSVFile) (rowdata : List (ℚ × ℚ))
    (hpres : file.present = true)
    (fns : List ColName) (hfns : file.fieldnames = some fns)
    (hts : ColName.t_s ∈ fns) (hia : ColName.i_a ∈ fns)
    (hrows : file.rows = rowdata.map finiteRow)
    (hne : rowdata ≠ [])
    (hsorted : List.Sorted (· ≤ ·) (rowdata.map Prod.fst)) :
    load_profile_csv file =
      Except.ok ⟨rowdata.map Prod.fst, rowdata.map Prod.snd⟩ ∧
    (rowdata.map Prod.fst).length = rowdata.length ∧
    (rowdata.map Prod.snd).length = rowdata.length := by
  refine ⟨?_, by simp, by simp⟩
  have hfile : file = ⟨true, some fns, rowdata.map finiteRow⟩ := by
    cases file
    simp_all
  have hmapt : (rowdata.map (fun rc => PyFloat.fin rc.1)).map pyfloatToRat
      = rowdata.map Prod.fst := by
    rw [List.map_map]
    rfl
  have hmapc : (rowdata.map (fun rc => PyFloat.fin rc.2)).map pyfloatToRat
      = rowdata.map Prod.snd := by
    rw [List.map_map]
    rfl
  have hfin1 : (rowdata.map (fun rc => PyFloat.fin rc.1)).all pyfloatIsFinite = true := by
    rw [List.all_eq_true]
    intro x hx
    obtain ⟨rc, -, rfl⟩ := List.mem_map.mp hx
    rfl
  have hfin2 : (rowdata.map (fun rc => PyFloat.fin rc.2)).all pyfloatIsFinite = true := by
    rw [List.all_eq_true]
    intro x hx
    obtain ⟨rc, -, rfl⟩ := List.mem_map.mp hx
    rfl
  have hempty : ¬ ((rowdata.map (fun rc => PyFloat.fin rc.1)).isEmpty = true) := by
    simp [hne]
  have hmono : ¬ (hasDecrease
      ((rowdata.map (fun rc => PyFloat.fin rc.1)).map pyfloatToRat) = true) := by
    rw [hmapt, (hasDecrease_eq_false_iff _).mpr (List.chain'_iff_pairwise.mpr hsorted)]
    exact Bool.false_ne_true
  rw [hfile, load_profile_csv_body fns _ hts hia, parseRows_finite rowdata 2,
    exceptOkBind]
  rw [if_neg hempty, if_neg (not_not_intro ⟨hfin1, hfin2⟩), if_neg hmono, hmapt, hmapc]

/-- Witness for C8 amended: two finite, time-sorted data rows. -/
theorem claim_C8_amended_witness :
    load_profile_csv ⟨true, some [ColName.t_s, ColName.i_a],
        ([((0 : ℚ), (1 : ℚ)), (2, 3)]).map finiteRow⟩ =
      Except.ok ⟨([((0 : ℚ), (1 : ℚ)), (2, 3)]).map Prod.fst,
                 ([((0 : ℚ), (1 : ℚ)), (2, 3)]).map Prod.snd⟩ ∧
    (([((0 : ℚ), (1 : ℚ)), (2, 3)]).map Prod.fst).length =
      ([((0 : ℚ), (1 : ℚ)), (2, 3)]).length ∧
    (([((0 : ℚ), (1 : ℚ)), (2, 3)]).map Prod.snd).length =
      ([((0 : ℚ), (1 : ℚ)), (2, 3)]).length :=
  claim_C8_amended ⟨true, some [ColName.t_s, ColName.i_a],
      ([((0 : ℚ), (1 : ℚ)), (2, 3)]).map finiteRow⟩
    [((0 : ℚ), (1 : ℚ)), (2, 3)] rfl [ColName.t_s, ColName.i_a] rfl
    (by apply of_decide_eq_true; with_unfolding_all rfl)
    (by apply of_decide_eq_true; with_unfolding_all rfl)
    rfl
    (by apply of_decide_eq_true; with_unfolding_all rfl)
    (by apply of_decide_eq_true; with_unfolding_all rfl)

/-- Counterexample to C1: a CSV that parses into the valid profile
`(1,0), (2,3)` — whose first time is positive — makes the infer-end-time
entry point fail with `RangeErrorBefore` at `dt = 1`, refuting "always
succeeds" and "never fails with RangeErrorBefore". -/
theorem claim_C1_counterexample :
    load_current_profile ⟨true, some [ColName.t_s, ColName.i_a],
        [finiteRow (1, 0), finiteRow (2, 3)]⟩ 1 =
      Except.error Err.gridStartsBefore := by
  with_unfolding_all rfl

/-- C1 amended: the infer-end-time entry point succeeds for every `dt > 0`
whenever the parsed profile's first time is `≤ 0` and its last time is
`> 0`; otherwise it can fail with `RangeErrorBefore` (first time positive,
since the grid starts at 0) or `InvalidParameter` (last time `≤ 0`). -/
theorem claim_C1_amended (file : CSVFile) (dt : ℚ) (p : ProfileData)
    (hp : load_profile_csv file = Except.ok p)
    (hdt : 0 < dt)
    (hfirst : p.times_s.headD 0 ≤ 0)
    (hlast : 0 < p.times_s.getLastD 0) :
    ∃ out, load_current_profile file dt = Except.ok out := by
  unfold load_current_profile
  rw [hp, exceptOkBind]
  dsimp only
  rw [build_time_grid_pos dt _ hdt hlast, exceptOkBind]
  have hfl : 0 ≤ ⌊p.times_s.getLastD 0 / dt⌋ :=
    Int.floor_nonneg.mpr (le_of_lt (div_pos hlast hdt))
  have hlastgrid :
      (uniformGrid (⌊p.times_s.getLastD 0 / dt⌋).toNat dt).getLastD 0 ≤
        p.times_s.getLastD 0 := by
    rw [uniformGrid_getLastD]
    have hcast : (((⌊p.times_s.getLastD 0 / dt⌋).toNat : ℕ) : ℚ) =
        ((⌊p.times_s.getLastD 0 / dt⌋ : ℤ) : ℚ) := by
      exact_mod_cast Int.toNat_of_nonneg hfl
    rw [hcast]
    exact floor_mul_le _ dt hdt
  have hheadgrid : p.times_s.headD 0 ≤
      (uniformGrid (⌊p.times_s.getLastD 0 / dt⌋).toNat dt).headD 0 := by
    rw [uniformGrid_headD]
    exact hfirst
  rw [interpolate_profile_ok_of p _ (uniformGrid_ne_nil _ dt) hheadgrid hlastgrid]
  exact ⟨_, rfl⟩

/-- Witness for C1 amended: profile `(0,1), (2,3)` starts at time 0 and
ends at time 2, so the pipeline succeeds at `dt = 1`. -/
theorem claim_C1_amended_witness :
    ∃ out, load_current_profile ⟨true, some [ColName.t_s, ColName.i_a],
        [finiteRow (0, 1), finiteRow (2, 3)]⟩ 1 = Except.ok out :=
  claim_C1_amended ⟨true, some [ColName.t_s, ColName.i_a],
      [finiteRow (0, 1), finiteRow (2, 3)]⟩ 1 ⟨[0, 2], [1, 3]⟩
    (by with_unfolding_all rfl)
    (by apply of_decide_eq_true; with_unfolding_all rfl)
    (by apply of_decide_eq_true; with_unfolding_all rfl)
    (by apply of_decide_eq_true; with_unfolding_all rfl)

end PyECN
